import Mathlib

/-!
Verification of the Bezier curve-fitting core (`osu_dreamer/signal/fit_bezier.py`).

The point type is `ℝ × ℝ`; numpy's vectorized arithmetic is embedded as
list maps/sums over exact real arithmetic.  The external `bezier` library
evaluates Bezier curves in Bernstein form; since the code only ever builds
curves with 2, 3 or 4 control points, `bezierEval` spells out the Bernstein
bases of degrees 1, 2 and 3.
-/

noncomputable section

namespace OsuDreamer

/-- 2D point / vector, as in the numpy arrays of shape (_, 2). -/
abbrev Pt : Type := ℝ × ℝ

def vadd (a b : Pt) : Pt := (a.1 + b.1, a.2 + b.2)

def vsub (a b : Pt) : Pt := (a.1 - b.1, a.2 - b.2)

def smul (c : ℝ) (a : Pt) : Pt := (c * a.1, c * a.2)

def dot (a b : Pt) : ℝ := a.1 * b.1 + a.2 * b.2

/-- squared euclidean norm, `((v)**2).sum(-1)`. -/
def norm2 (a : Pt) : ℝ := dot a a

/-- `np.linalg.norm(v)` / `np.sqrt(np.dot(v,v))`. -/
def vnorm (a : Pt) : ℝ := Real.sqrt (norm2 a)

/-- `np.finfo(float).eps` = 2^-52. -/
def npEps : ℝ := ((2 : ℝ) ^ (52 : ℕ))⁻¹

/-- `normalize(v)`: unit vector, or `v` unchanged when its magnitude is below eps. -/
def normalize (v : Pt) : Pt :=
  if vnorm v < npEps then v else smul (vnorm v)⁻¹ v

/-- successive differences `p[1:] - p[:-1]`. -/
def diffs : List Pt → List Pt
  | a :: b :: rest => vsub b a :: diffs (b :: rest)
  | _ => []

/-- `hodo(p) = p.shape[0] * (p[1:] - p[:-1])`: the code scales the successive
differences by the NUMBER of control points, not by the degree. -/
def hodo (p : List Pt) : List Pt := (diffs p).map (smul (p.length : ℝ))

/-- Modelled from the spec: the true hodograph of a Bezier curve, scaled
successive differences `degree * (p[i+1] - p[i])` with degree = length - 1,
i.e. `3 * (P_{i+1} - P_i)` for a cubic and 2 further points for its quadratic
derivative.  (The repository's `hodo` above scales by `p.shape[0]` instead.) -/
def hodograph (p : List Pt) : List Pt :=
  (diffs p).map (smul ((p.length - 1 : ℕ) : ℝ))

/-- Bernstein-form evaluation of a Bezier curve given its control points, as
performed by `bezier.Curve.from_nodes(...).evaluate_multi` for the degrees
(1, 2, 3) occurring in the code. -/
def bezierEval (ctrl : List Pt) (t : ℝ) : Pt :=
  match ctrl with
  | [p0] => p0
  | [p0, p1] => vadd (smul (1 - t) p0) (smul t p1)
  | [p0, p1, p2] =>
      vadd (vadd (smul ((1 - t) ^ 2) p0) (smul (2 * (1 - t) * t) p1))
        (smul (t ^ 2) p2)
  | [p0, p1, p2, p3] =>
      vadd (vadd (vadd (smul ((1 - t) ^ 3) p0) (smul (3 * (1 - t) ^ 2 * t) p1))
        (smul (3 * (1 - t) * t ^ 2) p2)) (smul (t ^ 3) p3)
  | _ => (0, 0)

/-- `q(p, t)`: evaluates the cubic bezier at t. -/
def q (p : List Pt) (t : ℝ) : Pt := bezierEval p t

/-- `qprime(p, t)`: what the code evaluates (the curve on `hodo(p)`). -/
def qprime (p : List Pt) (t : ℝ) : Pt := bezierEval (hodo p) t

/-- `qprimeprime(p, t)`: what the code evaluates (the curve on `hodo(hodo(p))`). -/
def qprimeprime (p : List Pt) (t : ℝ) : Pt := bezierEval (hodo (hodo p)) t

/-- One per-point update of `newton_raphson_root_find`:
`d = q(bez,u)-p`, `num = (d*qprime).sum(-1)`,
`den = (qprime**2 + d*qprimeprime).sum(-1)`,
result `u + np.where(den==0, 0, num/den)`. -/
def nrStep (bez : List Pt) (p : Pt) (ui : ℝ) : ℝ :=
  let d := vsub (q bez ui) p
  let qp := qprime bez ui
  let num := dot d qp
  let den := dot qp qp + dot d (qprimeprime bez ui)
  ui + (if den = 0 then 0 else num / den)

/-- `newton_raphson_root_find(bez, points, u)`, vectorized over the points. -/
def newton_raphson_root_find (bez : List Pt) (points : List Pt) (u : List ℝ) :
    List ℝ :=
  (points.zip u).map (fun pu => nrStep bez pu.1 pu.2)

/-- `generate_bezier(points, u, left_tangent, right_tangent)`. -/
def generate_bezier (points : List Pt) (u : List ℝ) (lt rt : Pt) : List Pt :=
  let p0 := points.headI
  let p3 := points.getLastD (0, 0)
  let bez0 : List Pt := [p0, p0, p3, p3]
  let A0 : ℝ → Pt := fun ui => smul (3 * (1 - ui) * ui * (1 - ui)) lt
  let A1 : ℝ → Pt := fun ui => smul (3 * (1 - ui) * ui * ui) rt
  let C00 := (u.map (fun ui => dot (A0 ui) (A0 ui))).sum
  let C01 := (u.map (fun ui => dot (A0 ui) (A1 ui))).sum
  let C10 := (u.map (fun ui => dot (A1 ui) (A0 ui))).sum
  let C11 := (u.map (fun ui => dot (A1 ui) (A1 ui))).sum
  let X0 := ((points.zip u).map
    (fun pu => dot (A0 pu.2) (vsub pu.1 (q bez0 pu.2)))).sum
  let X1 := ((points.zip u).map
    (fun pu => dot (A1 pu.2) (vsub pu.1 (q bez0 pu.2)))).sum
  let det_C0_C1 := C00 * C11 - C10 * C01
  let det_C0_X := C00 * X1 - C10 * X0
  let det_X_C1 := X0 * C11 - X1 * C01
  let alpha_l := if |det_C0_C1| < 1 / 100000 then 0 else det_X_C1 / det_C0_C1
  let alpha_r := if |det_C0_C1| < 1 / 100000 then 0 else det_C0_X / det_C0_C1
  let seg_len := vnorm (vsub p0 p3)
  let epsilon := 1 / 1000000 * seg_len
  if alpha_l < epsilon ∨ alpha_r < epsilon then
    [p0, vadd p0 (smul (seg_len / 3) lt), vadd p3 (smul (seg_len / 3) rt), p3]
  else
    [p0, vadd p0 (smul alpha_l lt), vadd p3 (smul alpha_r rt), p3]

/-- per-point squared errors `((q(bez_curve, u) - points) ** 2).sum(-1)`. -/
def errsOf (bez : List Pt) (points : List Pt) (u : List ℝ) : List ℝ :=
  (points.zip u).map (fun pu => norm2 (vsub (q bez pu.2) pu.1))

def argmaxAux : List ℝ → ℕ → ℕ → ℝ → ℕ
  | [], _, bi, _ => bi
  | x :: xs, i, bi, bv =>
      if x > bv then argmaxAux xs (i + 1) i x else argmaxAux xs (i + 1) bi bv

/-- `errs.argmax()`: first index attaining the maximum (numpy tie-break). -/
def argmaxIdx : List ℝ → ℕ
  | [] => 0
  | x :: xs => argmaxAux xs 1 0 x

/-- Outcome of the 32-iteration refinement loop of `fit_bezier`:
`success` = the `return [bez_curve]` exit, `failure sp` = falling through
to recursive subdivision at split index `sp`. -/
inductive FitOutcome : Type
  | success (curve : List Pt)
  | failure (split : ℕ)
deriving DecidableEq

/-- Result of a single iteration body of the refinement loop. -/
inductive StepRes : Type
  | done (o : FitOutcome)
  | cont (bez : List Pt) (sp : ℕ)
deriving DecidableEq

/-- One iteration of the loop body of `fit_bezier`: generate the curve for the
current parameterization, compute per-point errors, and exit on
`err < max_err` (success) or `err > max_err ** 2` (early abort). -/
def fitStep (points : List Pt) (max_err : ℝ) (lt rt : Pt) (u : List ℝ) :
    StepRes :=
  let bez := generate_bezier points u lt rt
  let errs := errsOf bez points u
  let sp := argmaxIdx errs
  let err := errs.getD sp 0
  if err < max_err then .done (.success bez)
  else if err > max_err ^ 2 then .done (.failure sp)
  else .cont bez sp

/-- The `for _ in range(32)` refinement loop: `fuel` counts the remaining
iterations after the current one (the driver enters with fuel 31, i.e. 32
iterations in total); on loop exhaustion the last iteration's split index is
used for subdivision.  A continued iteration re-parameterizes with
`newton_raphson_root_find` on the current curve. -/
def fitLoop (points : List Pt) (max_err : ℝ) (lt rt : Pt) :
    ℕ → List ℝ → FitOutcome
  | 0, u =>
      match fitStep points max_err lt rt u with
      | .done o => o
      | .cont _ sp => .failure sp
  | fuel + 1, u =>
      match fitStep points max_err lt rt u with
      | .done o => o
      | .cont bez _ =>
          fitLoop points max_err lt rt fuel
            (newton_raphson_root_find bez points u)

/-- The geometric-decay weights
`(lambda x,n: (x**-arange(1,n+1)) / (1 - x**-n) * (x-1))(2, n)`. -/
def weights (n : ℕ) : List ℝ :=
  (List.range n).map
    (fun k => ((2 : ℝ) ^ (k + 1))⁻¹ / (1 - ((2 : ℝ) ^ n)⁻¹) * (2 - 1))

/-- `l_vecs = points[2:2+len(weights)] - points[1]`. -/
def leftVecs (points : List Pt) (n : ℕ) : List Pt :=
  (List.range n).map
    (fun j => vsub (points.getD (2 + j) (0, 0)) (points.getD 1 (0, 0)))

/-- `r_vecs = points[-3:-3-len(weights):-1] - points[-2]`. -/
def rightVecs (points : List Pt) (n : ℕ) : List Pt :=
  (List.range n).map
    (fun j => vsub (points.getD (points.length - 3 - j) (0, 0))
      (points.getD (points.length - 2) (0, 0)))

/-- `np.einsum('np,n->p', vecs, weights)`: the weighted vector sum. -/
def wsum (ws : List ℝ) (vs : List Pt) : Pt :=
  ((ws.zip vs).map (fun wv => smul wv.1 wv.2)).foldl vadd (0, 0)

/-- Result of building the initial chord-length parameterization
`u = [0]; u[1:] = cumsum(norm(points[1:] - points[:-1])); u /= u[-1]`.
The final division is unguarded in the source, so three things can happen:
with at most 1 point the cumsum is empty, `u` stays the plain python list
`[0]`, `u[-1]` is the int 0, and `u /= 0` raises
`TypeError: unsupported operand types for /=: list and int` (`typeErr`);
with at least 2 points the slice assignment makes the entries numpy floats,
and if the total chord length is 0 (all points coincident, so every partial
sum is 0) the division is 0.0/0.0 elementwise and `u` is an all-NaN array
(`nanArray`); otherwise `u` is the finite array `partial sums / total`
(`ok`). -/
inductive ChordRes : Type
  | typeErr
  | nanArray
  | ok (u : List ℝ)
deriving DecidableEq

/-- The chord-length parameterization with the faithful outcome of the
unguarded `u /= u[-1]` (see `ChordRes`). -/
def chordParam (points : List Pt) : ChordRes :=
  if points.length ≤ 1 then .typeErr
  else
    let raw := List.scanl (· + ·) 0 ((diffs points).map vnorm)
    let total := raw.getLastD 0
    if total = 0 then .nanArray
    else .ok (raw.map (fun x => x / total))

/-- Result of one `fit_bezier` call: `ok r` models a python return value,
`typeErr` models the `TypeError` raised by the unguarded `u /= u[-1]` on a
(sub-)range with at most one point, propagating to the caller. -/
inductive FitRes : Type
  | ok (r : List (List Pt))
  | typeErr
deriving DecidableEq

/-- The refinement loop run on the all-NaN parameterization (IEEE/numpy
semantics): every quantity derived from NaN `u` is NaN
(`np.where(den==0, ...)` keeps NaN because `nan == 0` is False), every
comparison with NaN is False, so neither `err < max_err` (success) nor
`err > max_err ** 2` (early abort) ever fires and each of the budgeted
iterations falls through to another `newton_raphson_root_find` round (one
recursive step here per round); when the budget is exhausted the loop exits
with `split_point = np.argmax(errs)`, and `np.argmax` of an all-NaN array
is 0 (no element compares greater than the running maximum, so the initial
index 0 survives). -/
def fitLoopNaN : ℕ → FitOutcome
  | 0 => .failure 0
  | fuel + 1 => fitLoopNaN fuel

/-- The all-coincident 3-point input: its total chord length is 0, so the
source's parameterization is all-NaN (see `ChordRes`). -/
def cpts : List Pt := [(0, 0), (0, 0), (0, 0)]

/-- One level of `fit_bezier` without the recursion: tangent defaulting, the
2-point heuristic, and the refinement loop (normal on a finite
parameterization, `fitLoopNaN` on the all-NaN one, a raised `TypeError` on a
range of at most 1 point).  Returns either a final result (`inl`) or the
data needed to subdivide (`inr`: the resolved tangents and the split
index). -/
def fitOnce (points : List Pt) (max_err : ℝ) (ltO rtO : Option Pt) :
    FitRes ⊕ Pt × Pt × ℕ :=
  let n := min 10 (points.length - 2)
  let ws := weights n
  let left_tangent := ltO.getD (normalize (wsum ws (leftVecs points n)))
  let right_tangent := rtO.getD (normalize (wsum ws (rightVecs points n)))
  if points.length = 2 then
    let dist := vnorm (vsub (points.getD 0 (0, 0)) (points.getD 1 (0, 0))) / 3
    .inl (.ok [[points.getD 0 (0, 0),
           vadd (points.getD 0 (0, 0)) (smul dist left_tangent),
           vadd (points.getD 1 (0, 0)) (smul dist right_tangent),
           points.getD 1 (0, 0)]])
  else
    match chordParam points with
    | .typeErr => .inl .typeErr
    | .nanArray =>
      match fitLoopNaN 31 with
      | .success bez => .inl (.ok [bez])
      | .failure sp => .inr (left_tangent, right_tangent, sp)
    | .ok u =>
      match fitLoop points max_err left_tangent right_tangent 31 u with
      | .success bez => .inl (.ok [bez])
      | .failure sp => .inr (left_tangent, right_tangent, sp)

/-- `fit_bezier(points, max_err, left_tangent, right_tangent)`.  The python
recursion has no fuel; `fuel` only bounds the recursion depth so the
definition is total, and `none` marks fuel exhaustion.  A raised `TypeError`
(`FitRes.typeErr`) propagates from the left recursive call before the right
one is evaluated, as in `[*fit_bezier(..), *fit_bezier(..)]`.  Python's
`points[split_point-1]` is `points[-1]`, the LAST point, when
`split_point = 0` (negative indexing), hence the index conditional. -/
def fit_bezier : ℕ → List Pt → ℝ → Option Pt → Option Pt → Option FitRes
  | fuel, points, max_err, ltO, rtO =>
    match fitOnce points max_err ltO rtO with
    | .inl r => some r
    | .inr (lt, rt, sp) =>
      match fuel with
      | 0 => none
      | fuel' + 1 =>
        let center_tangent := normalize
          (vsub (points.getD (if sp = 0 then points.length - 1 else sp - 1)
            (0, 0)) (points.getD (sp + 1) (0, 0)))
        match fit_bezier fuel' (points.take (sp + 1)) max_err
                (some lt) (some center_tangent) with
        | none => none
        | some .typeErr => some .typeErr
        | some (.ok l) =>
          match fit_bezier fuel' (points.drop sp) max_err
                  (some (smul (-1) center_tangent)) (some rt) with
          | none => none
          | some .typeErr => some .typeErr
          | some (.ok r) => some (.ok (l ++ r))

/-- Invariant on a parameterization needed for interior splitting: the first
parameter is 0 and the last is 1 (or the degenerate all-coincident case where
the total chord length vanished and the last parameter is 0 with equal first
and last points). -/
def endParamOK (points : List Pt) (u : List ℝ) : Prop :=
  u.headI = 0 ∧
    (u.getLastD 0 = 1 ∨
      (u.getLastD 0 = 0 ∧ points.headI = points.getLastD (0, 0)))

/-- A concrete sharp-peak polyline used to exercise the theorems: chord
lengths are 5 and 5, so its chord parameterization is exactly [0, 1/2, 1]. -/
def wpts : List Pt := [(0, 0), (3, 4), (6, 0)]

/-- The chord parameterization of `wpts`, written out. -/
def wu : List ℝ := [0, 1 / 2, 1]

/-- A concrete collinear cubic used to evaluate `newton_raphson_root_find`. -/
def cbez : List Pt := [(0, 0), (1, 0), (2, 0), (3, 0)]

/-- A concrete non-collinear cubic used to evaluate `qprime`/`qprimeprime`. -/
def qbez : List Pt := [(0, 0), (1, 0), (1, 1), (0, 1)]

/-! ## Basic vector and evaluation lemmas -/

theorem vsub_self (a : Pt) : vsub a a = (0, 0) := by
  simp [vsub]

theorem dot_zero_left (b : Pt) : dot (0, 0) b = 0 := by
  simp [dot]

theorem norm2_zero : norm2 ((0, 0) : Pt) = 0 := by
  simp [norm2, dot]

theorem norm2_nonneg (a : Pt) : 0 ≤ norm2 a := by
  have h1 := mul_self_nonneg a.1
  have h2 := mul_self_nonneg a.2
  simp only [norm2, dot]
  nlinarith

theorem vnorm_nonneg (a : Pt) : 0 ≤ vnorm a := Real.sqrt_nonneg _

theorem vnorm_eq_zero_iff (a : Pt) : vnorm a = 0 ↔ a = (0, 0) := by
  constructor
  · intro h
    have h0 : norm2 a = 0 :=
      le_antisymm (Real.sqrt_eq_zero'.mp h) (norm2_nonneg a)
    have h1 := mul_self_nonneg a.1
    have h2 := mul_self_nonneg a.2
    simp only [norm2, dot] at h0
    have ha1 : a.1 * a.1 = 0 := by nlinarith
    have ha2 : a.2 * a.2 = 0 := by nlinarith
    ext
    · exact mul_self_eq_zero.mp ha1
    · exact mul_self_eq_zero.mp ha2
  · rintro rfl
    simp [vnorm, norm2, dot, Real.sqrt_zero]

theorem vnorm_pos (a : Pt) (h : a ≠ (0, 0)) : 0 < vnorm a := by
  rcases lt_or_eq_of_le (vnorm_nonneg a) with h' | h'
  · exact h'
  · exact absurd ((vnorm_eq_zero_iff a).mp h'.symm) h

theorem vadd_ne_self (p v : Pt) (h : v ≠ (0, 0)) : vadd p v ≠ p := by
  intro hc
  apply h
  have h1 : p.1 + v.1 = p.1 := congrArg Prod.fst hc
  have h2 : p.2 + v.2 = p.2 := congrArg Prod.snd hc
  ext <;> simp at h1 h2 ⊢ <;> assumption

theorem smul_ne_zero_pt (c : ℝ) (v : Pt) (hc : c ≠ 0) (hv : v ≠ (0, 0)) :
    smul c v ≠ (0, 0) := by
  intro hcon
  apply hv
  have h1 : c * v.1 = 0 := congrArg Prod.fst hcon
  have h2 : c * v.2 = 0 := congrArg Prod.snd hcon
  ext
  · exact (mul_eq_zero.mp h1).resolve_left hc
  · exact (mul_eq_zero.mp h2).resolve_left hc

theorem bezierEval_cubic_zero (a b c d : Pt) : bezierEval [a, b, c, d] 0 = a := by
  simp [bezierEval, vadd, smul]

theorem bezierEval_cubic_one (a b c d : Pt) : bezierEval [a, b, c, d] 1 = d := by
  simp [bezierEval, vadd, smul]

/-! ## List helper lemmas -/

theorem getLastD_irrel {α : Type} (l : List α) (h : l ≠ []) (d₁ d₂ : α) :
    l.getLastD d₁ = l.getLastD d₂ := by
  rw [List.getLastD_eq_getLast?, List.getLastD_eq_getLast?,
    List.getLast?_eq_getLast l h]
  rfl

theorem map_headI {α β : Type} [Inhabited α] [Inhabited β] (f : α → β)
    (l : List α) (h : l ≠ []) : (l.map f).headI = f l.headI := by
  cases l with
  | nil => exact absurd rfl h
  | cons x t => rfl

theorem map_getLastD {α β : Type} (f : α → β) (l : List α) (d : α) :
    (l.map f).getLastD (f d) = f (l.getLastD d) := by
  rw [List.getLastD_eq_getLast?, List.getLastD_eq_getLast?, List.getLast?_map]
  cases h : l.getLast? <;> simp [h]

theorem zip_ne_nil {α β : Type} (l₁ : List α) (l₂ : List β)
    (h₁ : l₁ ≠ []) (h₂ : l₂ ≠ []) : l₁.zip l₂ ≠ [] := by
  cases l₁ with
  | nil => exact absurd rfl h₁
  | cons x t =>
    cases l₂ with
    | nil => exact absurd rfl h₂
    | cons y s => simp [List.zip]

theorem zip_headI {α β : Type} [Inhabited α] [Inhabited β]
    (l₁ : List α) (l₂ : List β) (h₁ : l₁ ≠ []) (h₂ : l₂ ≠ []) :
    (l₁.zip l₂).headI = (l₁.headI, l₂.headI) := by
  cases l₁ with
  | nil => exact absurd rfl h₁
  | cons x t =>
    cases l₂ with
    | nil => exact absurd rfl h₂
    | cons y s => rfl

theorem zip_getLastD {α β : Type} (l₁ : List α) (l₂ : List β) (d₁ : α) (d₂ : β)
    (h : l₁.length = l₂.length) :
    (l₁.zip l₂).getLastD (d₁, d₂) = (l₁.getLastD d₁, l₂.getLastD d₂) := by
  induction l₁ generalizing l₂ d₁ d₂ with
  | nil =>
    cases l₂ with
    | nil => rfl
    | cons y s => simp at h
  | cons x t ih =>
    cases l₂ with
    | nil => simp at h
    | cons y s =>
      simp only [List.length_cons, Nat.add_right_cancel_iff] at h
      have hz : (x :: t).zip (y :: s) = (x, y) :: t.zip s := rfl
      rw [hz, List.getLastD_cons, List.getLastD_cons, List.getLastD_cons,
        ih s x y h]

theorem getD_zero_eq_headI {α : Type} [Inhabited α] (l : List α) (h : l ≠ []) :
    l.getD 0 default = l.headI := by
  cases l with
  | nil => exact absurd rfl h
  | cons x t => rfl

theorem getD_last_eq_getLastD {α : Type} (l : List α) (d : α) (h : l ≠ []) :
    l.getD (l.length - 1) d = l.getLastD d := by
  induction l with
  | nil => exact absurd rfl h
  | cons x t ih =>
    cases t with
    | nil => rfl
    | cons y s =>
      have ht : (y :: s) ≠ [] := by simp
      have hlen : (x :: y :: s).length - 1 = s.length + 1 := by
        simp
      have hlen2 : (y :: s).length - 1 = s.length := by simp
      rw [hlen, List.getD_cons_succ, List.getLastD_cons,
        ← hlen2, ih ht, getLastD_irrel _ ht d x]

theorem diffs_length (l : List Pt) : (diffs l).length = l.length - 1 := by
  induction l with
  | nil => simp [diffs]
  | cons x t ih =>
    cases t with
    | nil => simp [diffs]
    | cons y s =>
      simp only [diffs, List.length_cons] at ih ⊢
      omega

/-! ## argmax lemmas -/

theorem argmaxAux_lt (xs : List ℝ) : ∀ i bi bv, bi < i →
    argmaxAux xs i bi bv < i + xs.length := by
  induction xs with
  | nil => intro i bi bv h; simpa [argmaxAux] using h
  | cons x t ih =>
    intro i bi bv h
    simp only [argmaxAux, List.length_cons]
    split
    · have := ih (i + 1) i x (by omega)
      omega
    · have := ih (i + 1) bi bv (by omega)
      omega

theorem argmaxIdx_lt (l : List ℝ) (h : l ≠ []) : argmaxIdx l < l.length := by
  cases l with
  | nil => exact absurd rfl h
  | cons x t =>
    have := argmaxAux_lt t 1 0 x (by omega)
    simp only [argmaxIdx, List.length_cons]
    omega

/-! ## Structure of `generate_bezier` -/

theorem generate_bezier_shape (points : List Pt) (u : List ℝ) (lt rt : Pt) :
    ∃ b1 b2, generate_bezier points u lt rt =
      [points.headI, b1, b2, points.getLastD (0, 0)] := by
  simp only [generate_bezier]
  split <;> (try split) <;> exact ⟨_, _, rfl⟩

theorem q_generate_zero (points : List Pt) (u : List ℝ) (lt rt : Pt) :
    q (generate_bezier points u lt rt) 0 = points.headI := by
  obtain ⟨b1, b2, h⟩ := generate_bezier_shape points u lt rt
  rw [q, h, bezierEval_cubic_zero]

theorem q_generate_one (points : List Pt) (u : List ℝ) (lt rt : Pt) :
    q (generate_bezier points u lt rt) 1 = points.getLastD (0, 0) := by
  obtain ⟨b1, b2, h⟩ := generate_bezier_shape points u lt rt
  rw [q, h, bezierEval_cubic_one]

/-! ## Error list lemmas -/

theorem errsOf_length (bez points : List Pt) (u : List ℝ) :
    (errsOf bez points u).length = min points.length u.length := by
  simp [errsOf]

theorem errsOf_ne_nil (bez points : List Pt) (u : List ℝ)
    (hp : points ≠ []) (hu : u ≠ []) : errsOf bez points u ≠ [] := by
  simp only [errsOf]
  intro hc
  exact zip_ne_nil points u hp hu (List.map_eq_nil_iff.mp hc)

theorem errsOf_headI (bez points : List Pt) (u : List ℝ)
    (hp : points ≠ []) (hu : u ≠ []) :
    (errsOf bez points u).headI =
      norm2 (vsub (q bez u.headI) points.headI) := by
  simp only [errsOf]
  rw [map_headI _ _ (zip_ne_nil points u hp hu), zip_headI points u hp hu]

theorem errsOf_getLastD (bez points : List Pt) (u : List ℝ)
    (hp : points ≠ []) (hu : u ≠ [])
    (hlen : points.length = u.length) :
    (errsOf bez points u).getLastD 0 =
      norm2 (vsub (q bez (u.getLastD 0)) (points.getLastD (0, 0))) := by
  simp only [errsOf]
  have hz : points.zip u ≠ [] := zip_ne_nil points u hp hu
  have : ((points.zip u).map
      (fun pu => norm2 (vsub (q bez pu.2) pu.1))).getLastD 0 =
      ((points.zip u).map
      (fun pu => norm2 (vsub (q bez pu.2) pu.1))).getLastD
        (norm2 (vsub (q bez 0) (0, 0))) := by
    apply getLastD_irrel
    intro hc
    exact hz (List.map_eq_nil_iff.mp hc)
  rw [this]
  have hm := map_getLastD (fun pu : Pt × ℝ => norm2 (vsub (q bez pu.2) pu.1))
    (points.zip u) ((0, 0), 0)
  rw [hm, zip_getLastD points u (0, 0) 0 hlen]

/-! ## Newton-Raphson step lemmas -/

theorem nrStep_fixed (bez : List Pt) (p : Pt) (t : ℝ) (h : q bez t = p) :
    nrStep bez p t = t := by
  simp only [nrStep, h, vsub_self, dot_zero_left]
  simp

theorem nr_length (bez points : List Pt) (u : List ℝ) :
    (newton_raphson_root_find bez points u).length =
      min points.length u.length := by
  simp [newton_raphson_root_find]

theorem nr_ne_nil (bez points : List Pt) (u : List ℝ)
    (hp : points ≠ []) (hu : u ≠ []) :
    newton_raphson_root_find bez points u ≠ [] := by
  simp only [newton_raphson_root_find]
  intro hc
  exact zip_ne_nil points u hp hu (List.map_eq_nil_iff.mp hc)

theorem nr_headI (bez points : List Pt) (u : List ℝ)
    (hp : points ≠ []) (hu : u ≠ []) :
    (newton_raphson_root_find bez points u).headI =
      nrStep bez points.headI u.headI := by
  simp only [newton_raphson_root_find]
  rw [map_headI _ _ (zip_ne_nil points u hp hu), zip_headI points u hp hu]

theorem nr_getLastD (bez points : List Pt) (u : List ℝ)
    (hp : points ≠ []) (hu : u ≠ [])
    (hlen : points.length = u.length) :
    (newton_raphson_root_find bez points u).getLastD 0 =
      nrStep bez (points.getLastD (0, 0)) (u.getLastD 0) := by
  simp only [newton_raphson_root_find]
  have hz : points.zip u ≠ [] := zip_ne_nil points u hp hu
  have hirr : ((points.zip u).map
      (fun pu => nrStep bez pu.1 pu.2)).getLastD 0 =
      ((points.zip u).map
      (fun pu => nrStep bez pu.1 pu.2)).getLastD (nrStep bez (0, 0) 0) := by
    apply getLastD_irrel
    intro hc
    exact hz (List.map_eq_nil_iff.mp hc)
  rw [hirr]
  have hm := map_getLastD (fun pu : Pt × ℝ => nrStep bez pu.1 pu.2)
    (points.zip u) ((0, 0), 0)
  rw [hm, zip_getLastD points u (0, 0) 0 hlen]

/-! ## The invariant is preserved by the Newton-Raphson iteration -/

theorem endParamOK_nr (points : List Pt) (u : List ℝ) (lt rt : Pt)
    (hp : points ≠ []) (hu : u ≠ [])
    (hlen : points.length = u.length) (hok : endParamOK points u) :
    endParamOK points
      (newton_raphson_root_find (generate_bezier points u lt rt) points u) := by
  obtain ⟨h0, hlast⟩ := hok
  constructor
  · rw [nr_headI _ _ _ hp hu, h0]
    exact nrStep_fixed _ _ _ (q_generate_zero points u lt rt)
  · rw [nr_getLastD _ _ _ hp hu hlen]
    rcases hlast with h1 | ⟨h1, h2⟩
    · left
      rw [h1]
      exact nrStep_fixed _ _ _ (q_generate_one points u lt rt)
    · right
      refine ⟨?_, h2⟩
      rw [h1]
      apply nrStep_fixed
      rw [q_generate_zero points u lt rt, h2]

/-! ## Case analysis of the loop body -/

theorem fitStep_cases (points : List Pt) (m : ℝ) (lt rt : Pt) (u : List ℝ) :
    (errsOf (generate_bezier points u lt rt) points u).getD
        (argmaxIdx (errsOf (generate_bezier points u lt rt) points u)) 0 < m ∧
      fitStep points m lt rt u =
        .done (.success (generate_bezier points u lt rt)) ∨
    ¬ (errsOf (generate_bezier points u lt rt) points u).getD
        (argmaxIdx (errsOf (generate_bezier points u lt rt) points u)) 0 < m ∧
      (errsOf (generate_bezier points u lt rt) points u).getD
        (argmaxIdx (errsOf (generate_bezier points u lt rt) points u)) 0 >
        m ^ 2 ∧
      fitStep points m lt rt u =
        .done (.failure
          (argmaxIdx (errsOf (generate_bezier points u lt rt) points u))) ∨
    ¬ (errsOf (generate_bezier points u lt rt) points u).getD
        (argmaxIdx (errsOf (generate_bezier points u lt rt) points u)) 0 < m ∧
      ¬ (errsOf (generate_bezier points u lt rt) points u).getD
        (argmaxIdx (errsOf (generate_bezier points u lt rt) points u)) 0 >
        m ^ 2 ∧
      fitStep points m lt rt u =
        .cont (generate_bezier points u lt rt)
          (argmaxIdx (errsOf (generate_bezier points u lt rt) points u)) := by
  simp only [fitStep]
  split_ifs with h1 h2
  · exact Or.inl ⟨h1, rfl⟩
  · exact Or.inr (Or.inl ⟨h1, h2, rfl⟩)
  · exact Or.inr (Or.inr ⟨h1, h2, rfl⟩)

/-- In any failing iteration, the error at the split index is not below
`max_err`, hence positive, and the endpoint errors are 0, so the split index
is strictly interior. -/
theorem split_interior_of_not_lt (points : List Pt) (m : ℝ) (lt rt : Pt)
    (u : List ℝ) (hm : 0 < m)
    (hlen : u.length = points.length) (hok : endParamOK points u)
    (herr : ¬ (errsOf (generate_bezier points u lt rt) points u).getD
      (argmaxIdx (errsOf (generate_bezier points u lt rt) points u)) 0 < m) :
    0 < argmaxIdx (errsOf (generate_bezier points u lt rt) points u) ∧
      argmaxIdx (errsOf (generate_bezier points u lt rt) points u) + 1 <
        points.length := by
  set bez := generate_bezier points u lt rt with hbez
  set errs := errsOf bez points u with herrs
  set sp := argmaxIdx errs with hsp
  have herr' : m ≤ errs.getD sp 0 := not_lt.mp herr
  have hpos : 0 < errs.getD sp 0 := lt_of_lt_of_le hm herr'
  have hne : errs ≠ [] := by
    intro hc
    rw [hc] at hpos
    simp [List.getD] at hpos
  have hp : points ≠ [] := by
    intro hc
    apply hne
    rw [herrs, hc]
    rfl
  have hu : u ≠ [] := by
    intro hc
    apply hne
    rw [herrs, hc]
    simp [errsOf]
  have hlen2 : errs.length = points.length := by
    rw [herrs, errsOf_length, hlen, min_self]
  have hlt : sp < errs.length := by
    rw [hsp]
    exact argmaxIdx_lt errs hne
  constructor
  · rcases Nat.eq_zero_or_pos sp with h | h
    swap
    · exact h
    exfalso
    · rw [h] at hpos
      have h0 : errs.getD 0 0 = errs.headI := getD_zero_eq_headI errs hne
      rw [h0, herrs, errsOf_headI bez points u hp hu, hok.1,
        hbez, q_generate_zero points u lt rt, vsub_self, norm2_zero] at hpos
      exact lt_irrefl 0 hpos
  · rcases Nat.lt_or_ge (sp + 1) points.length with h | h
    · exact h
    · exfalso
      have hsp_eq : sp = errs.length - 1 := by omega
      have h0 : errs.getD sp 0 = errs.getLastD 0 := by
        rw [hsp_eq]
        exact getD_last_eq_getLastD errs 0 hne
      rw [h0, herrs, errsOf_getLastD bez points u hp hu hlen.symm] at hpos
      rcases hok.2 with h1 | ⟨h1, h2⟩
      · rw [h1, hbez, q_generate_one points u lt rt, vsub_self, norm2_zero]
          at hpos
        exact lt_irrefl 0 hpos
      · rw [h1, hbez, q_generate_zero points u lt rt, h2, vsub_self,
          norm2_zero] at hpos
        exact lt_irrefl 0 hpos

/-- Whenever the refinement loop reaches the subdivision branch starting from
a parameterization satisfying the endpoint invariant, the split index is
strictly interior. -/
theorem fitLoop_failure_interior (points : List Pt) (m : ℝ) (lt rt : Pt) :
    ∀ fuel : ℕ, ∀ u : List ℝ, ∀ sp : ℕ, 0 < m →
    u.length = points.length → endParamOK points u →
    fitLoop points m lt rt fuel u = .failure sp →
    0 < sp ∧ sp + 1 < points.length := by
  intro fuel
  induction fuel with
  | zero =>
    intro u sp hm hlen hok hfail
    rcases fitStep_cases points m lt rt u with ⟨_, hs⟩ | ⟨h1, _, hs⟩ |
      ⟨h1, _, hs⟩
    · rw [fitLoop, hs] at hfail
      exact absurd hfail (by simp)
    · rw [fitLoop, hs] at hfail
      simp only [FitOutcome.failure.injEq] at hfail
      rw [← hfail]
      exact split_interior_of_not_lt points m lt rt u hm hlen hok h1
    · rw [fitLoop, hs] at hfail
      simp only [FitOutcome.failure.injEq] at hfail
      rw [← hfail]
      exact split_interior_of_not_lt points m lt rt u hm hlen hok h1
  | succ fuel ih =>
    intro u sp hm hlen hok hfail
    rcases fitStep_cases points m lt rt u with ⟨_, hs⟩ | ⟨h1, _, hs⟩ |
      ⟨h1, _, hs⟩
    · rw [fitLoop, hs] at hfail
      exact absurd hfail (by simp)
    · rw [fitLoop, hs] at hfail
      simp only [FitOutcome.failure.injEq] at hfail
      rw [← hfail]
      exact split_interior_of_not_lt points m lt rt u hm hlen hok h1
    · rw [fitLoop, hs] at hfail
      have hp : points ≠ [] := by
        intro hc
        rw [hc] at hlen
        have : u = [] := List.length_eq_zero.mp (by simpa using hlen)
        rw [hc, this] at hok
        obtain ⟨_, hl⟩ := hok
        have h0 : errsOf (generate_bezier points u lt rt) points u = [] := by
          rw [hc]
          rfl
        apply h1
        rw [h0]
        simpa [List.getD] using hm
      have hu : u ≠ [] := by
        intro hc
        apply hp
        rw [hc] at hlen
        exact List.length_eq_zero.mp (by simpa using hlen.symm)
      refine ih (newton_raphson_root_find
        (generate_bezier points u lt rt) points u) sp hm ?_ ?_ hfail
      · rw [nr_length, hlen, min_self]
      · exact endParamOK_nr points u lt rt hp hu hlen.symm hok

/-! ## The initial chord-length parameterization satisfies the invariant -/

theorem scanl_add_headI (a : ℝ) (l : List ℝ) :
    (List.scanl (· + ·) a l).headI = a := by
  cases l with
  | nil => rfl
  | cons x t => rw [List.scanl_cons]; rfl

theorem scanl_add_ne_nil (a : ℝ) (l : List ℝ) :
    List.scanl (· + ·) a l ≠ [] := by
  cases l with
  | nil => simp
  | cons x t => rw [List.scanl_cons]; simp

theorem vsub_eq_zero_iff (a b : Pt) : vsub b a = (0, 0) ↔ b = a := by
  constructor
  · intro h
    have h1 : b.1 - a.1 = 0 := congrArg Prod.fst h
    have h2 : b.2 - a.2 = 0 := congrArg Prod.snd h
    ext
    · linarith
    · linarith
  · rintro rfl
    exact vsub_self b

theorem chordParam_ok_elim (points : List Pt) (u : List ℝ)
    (h : chordParam points = .ok u) :
    2 ≤ points.length ∧
      ¬ (List.scanl (· + ·) 0 ((diffs points).map vnorm)).getLastD 0 = 0 ∧
      u = (List.scanl (· + ·) 0 ((diffs points).map vnorm)).map
        (fun x => x / (List.scanl (· + ·) 0
          ((diffs points).map vnorm)).getLastD 0) := by
  simp only [chordParam] at h
  split_ifs at h with h1 h2
  simp only [ChordRes.ok.injEq] at h
  exact ⟨by omega, h2, h.symm⟩

theorem chordParam_ok_length (points : List Pt) (u : List ℝ)
    (h : chordParam points = .ok u) : u.length = points.length := by
  obtain ⟨h2, _, hu⟩ := chordParam_ok_elim points u h
  rw [hu]
  simp only [List.length_map, List.length_scanl, diffs_length]
  omega

theorem chordParam_ok_ne_nil (points : List Pt) (u : List ℝ)
    (h : chordParam points = .ok u) : u ≠ [] := by
  obtain ⟨h2, _, hu⟩ := chordParam_ok_elim points u h
  rw [hu]
  intro hc
  exact scanl_add_ne_nil _ _ (List.map_eq_nil_iff.mp hc)

theorem chordParam_ok_endOK (points : List Pt) (u : List ℝ)
    (h : chordParam points = .ok u) : endParamOK points u := by
  obtain ⟨h2, htot, hu⟩ := chordParam_ok_elim points u h
  subst hu
  set raw := List.scanl (· + ·) 0 ((diffs points).map vnorm) with hraw
  set total := raw.getLastD 0 with htotal
  have hraw_ne : raw ≠ [] := by
    rw [hraw]
    exact scanl_add_ne_nil _ _
  have hraw_head : raw.headI = 0 := by
    rw [hraw]
    exact scanl_add_headI _ _
  constructor
  · rw [map_headI _ _ hraw_ne, hraw_head]
    exact zero_div _
  · left
    have h0 : (0 : ℝ) / total = 0 := zero_div _
    have hlast : (raw.map (fun x => x / total)).getLastD 0 =
        total / total := by
      rw [← h0, map_getLastD (fun x => x / total) raw 0]
    rw [hlast]
    exact div_self htot

theorem fitLoopNaN_const : ∀ fuel : ℕ, fitLoopNaN fuel = .failure 0 := by
  intro fuel
  induction fuel with
  | zero => rfl
  | succ fuel ih => rw [fitLoopNaN, ih]

/-! ## Structure of `fitOnce` and `fit_bezier` -/

theorem headI_mem {α : Type} [Inhabited α] (l : List α) (h : l ≠ []) :
    l.headI ∈ l := by
  cases l with
  | nil => exact absurd rfl h
  | cons x t => simp

theorem getLastD_mem {α : Type} (l : List α) (d : α) (h : l ≠ []) :
    l.getLastD d ∈ l := by
  induction l generalizing d with
  | nil => exact absurd rfl h
  | cons x t ih =>
    cases t with
    | nil => simp
    | cons y s =>
      rw [List.getLastD_cons]
      exact List.mem_cons_of_mem x (ih x (by simp))

theorem chordParam_single (x : Pt) : chordParam [x] = .typeErr := by
  simp [chordParam]

theorem take_one_eq_headI (points : List Pt) (hp : points ≠ []) :
    points.take 1 = [points.headI] := by
  cases points with
  | nil => exact absurd rfl hp
  | cons y t => simp

theorem fitOnce_typeErr_eq (points : List Pt) (m : ℝ) (ltO rtO : Option Pt)
    (h2 : points.length ≠ 2) (hc : chordParam points = .typeErr) :
    fitOnce points m ltO rtO = .inl .typeErr := by
  simp only [fitOnce]
  rw [if_neg h2, hc]

theorem fitOnce_nan_eq (points : List Pt) (m : ℝ) (ltO rtO : Option Pt)
    (h2 : points.length ≠ 2) (hc : chordParam points = .nanArray) :
    fitOnce points m ltO rtO = .inr
      (ltO.getD (normalize (wsum (weights (min 10 (points.length - 2)))
        (leftVecs points (min 10 (points.length - 2))))),
       rtO.getD (normalize (wsum (weights (min 10 (points.length - 2)))
        (rightVecs points (min 10 (points.length - 2))))), 0) := by
  simp only [fitOnce]
  rw [if_neg h2, hc, fitLoopNaN_const 31]

theorem fitOnce_ok_eq (points : List Pt) (m : ℝ) (ltO rtO : Option Pt)
    (u : List ℝ) (h2 : points.length ≠ 2) (hc : chordParam points = .ok u) :
    fitOnce points m ltO rtO =
      match fitLoop points m
          (ltO.getD (normalize (wsum (weights (min 10 (points.length - 2)))
            (leftVecs points (min 10 (points.length - 2))))))
          (rtO.getD (normalize (wsum (weights (min 10 (points.length - 2)))
            (rightVecs points (min 10 (points.length - 2)))))) 31 u with
      | .success bez => .inl (.ok [bez])
      | .failure sp => .inr
          (ltO.getD (normalize (wsum (weights (min 10 (points.length - 2)))
            (leftVecs points (min 10 (points.length - 2))))),
           rtO.getD (normalize (wsum (weights (min 10 (points.length - 2)))
            (rightVecs points (min 10 (points.length - 2))))), sp) := by
  simp only [fitOnce]
  rw [if_neg h2, hc]

/-- A subdivision request comes either from the NaN loop (split 0) or from a
failing run of the normal loop on a well-defined parameterization. -/
theorem fitOnce_inr_elim (points : List Pt) (m : ℝ) (ltO rtO : Option Pt)
    (lt rt : Pt) (sp : ℕ)
    (h : fitOnce points m ltO rtO = .inr (lt, rt, sp)) :
    points.length ≠ 2 ∧
      ((chordParam points = .nanArray ∧ sp = 0) ∨
        (∃ u, chordParam points = .ok u ∧
          fitLoop points m lt rt 31 u = .failure sp)) := by
  have h2 : points.length ≠ 2 := by
    intro h2
    rw [show fitOnce points m ltO rtO = .inl (.ok _) from by
      simp only [fitOnce]
      rw [if_pos h2]] at h
    exact absurd h (by simp)
  refine ⟨h2, ?_⟩
  rcases hc : chordParam points with _ | _ | u
  · rw [fitOnce_typeErr_eq points m ltO rtO h2 hc] at h
    exact absurd h (by simp)
  · rw [fitOnce_nan_eq points m ltO rtO h2 hc] at h
    simp only [Sum.inr.injEq, Prod.mk.injEq] at h
    exact Or.inl ⟨rfl, h.2.2.symm⟩
  · rw [fitOnce_ok_eq points m ltO rtO u h2 hc] at h
    rcases hl : fitLoop points m
        (ltO.getD (normalize (wsum (weights (min 10 (points.length - 2)))
          (leftVecs points (min 10 (points.length - 2))))))
        (rtO.getD (normalize (wsum (weights (min 10 (points.length - 2)))
          (rightVecs points (min 10 (points.length - 2)))))) 31 u
      with bez | sp'
    · rw [hl] at h
      exact absurd h (by simp)
    · rw [hl] at h
      simp only [Sum.inr.injEq, Prod.mk.injEq] at h
      obtain ⟨hlt, hrt, hsp⟩ := h
      exact Or.inr ⟨u, rfl, by rw [← hlt, ← hrt, hl, hsp]⟩

/-- A returned (non-raising) non-splitting result is either the 2-point
heuristic curve or a successful run of the normal refinement loop. -/
theorem fitOnce_inl_ok_elim (points : List Pt) (m : ℝ) (ltO rtO : Option Pt)
    (r : List (List Pt)) (h : fitOnce points m ltO rtO = .inl (.ok r)) :
    (points.length = 2 ∧ ∃ c1 c2,
        r = [[points.getD 0 (0, 0), c1, c2, points.getD 1 (0, 0)]]) ∨
      (∃ lt rt u bez, fitLoop points m lt rt 31 u = .success bez ∧
        r = [bez]) := by
  by_cases h2 : points.length = 2
  · left
    refine ⟨h2, ?_⟩
    rw [show fitOnce points m ltO rtO = .inl (.ok _) from by
      simp only [fitOnce]
      rw [if_pos h2]] at h
    simp only [Sum.inl.injEq, FitRes.ok.injEq] at h
    exact ⟨_, _, h.symm⟩
  · right
    rcases hc : chordParam points with _ | _ | u
    · rw [fitOnce_typeErr_eq points m ltO rtO h2 hc] at h
      exact absurd h (by simp)
    · rw [fitOnce_nan_eq points m ltO rtO h2 hc] at h
      exact absurd h (by simp)
    · rw [fitOnce_ok_eq points m ltO rtO u h2 hc] at h
      rcases hl : fitLoop points m
          (ltO.getD (normalize (wsum (weights (min 10 (points.length - 2)))
            (leftVecs points (min 10 (points.length - 2))))))
          (rtO.getD (normalize (wsum (weights (min 10 (points.length - 2)))
            (rightVecs points (min 10 (points.length - 2)))))) 31 u
        with bez | sp'
      · rw [hl] at h
        simp only [Sum.inl.injEq, FitRes.ok.injEq] at h
        exact ⟨_, _, u, bez, hl, h.symm⟩
      · rw [hl] at h
        exact absurd h (by simp)

theorem fitLoop_success_shape (points : List Pt) (m : ℝ) (lt rt : Pt) :
    ∀ fuel : ℕ, ∀ u : List ℝ, ∀ bez : List Pt,
    fitLoop points m lt rt fuel u = .success bez →
    ∃ b1 b2, bez = [points.headI, b1, b2, points.getLastD (0, 0)] := by
  intro fuel
  induction fuel with
  | zero =>
    intro u bez hs
    rcases fitStep_cases points m lt rt u with ⟨_, h⟩ | ⟨_, _, h⟩ | ⟨_, _, h⟩
    · rw [fitLoop, h] at hs
      simp only [FitOutcome.success.injEq] at hs
      rw [← hs]
      exact generate_bezier_shape points u lt rt
    · rw [fitLoop, h] at hs
      exact absurd hs (by simp)
    · rw [fitLoop, h] at hs
      exact absurd hs (by simp)
  | succ fuel ih =>
    intro u bez hs
    rcases fitStep_cases points m lt rt u with ⟨_, h⟩ | ⟨_, _, h⟩ | ⟨_, _, h⟩
    · rw [fitLoop, h] at hs
      simp only [FitOutcome.success.injEq] at hs
      rw [← hs]
      exact generate_bezier_shape points u lt rt
    · rw [fitLoop, h] at hs
      exact absurd hs (by simp)
    · rw [fitLoop, h] at hs
      exact ih _ bez hs

theorem fit_bezier_eq_inl (fuel : ℕ) (points : List Pt) (m : ℝ)
    (ltO rtO : Option Pt) (r : FitRes)
    (ho : fitOnce points m ltO rtO = .inl r) :
    fit_bezier fuel points m ltO rtO = some r := by
  cases fuel <;> (rw [fit_bezier, ho])

theorem fit_bezier_zero_eq_inr (points : List Pt) (m : ℝ)
    (ltO rtO : Option Pt) (lt rt : Pt) (sp : ℕ)
    (ho : fitOnce points m ltO rtO = .inr (lt, rt, sp)) :
    fit_bezier 0 points m ltO rtO = none := by
  rw [fit_bezier, ho]

theorem fit_bezier_succ_eq_inr (fuel : ℕ) (points : List Pt) (m : ℝ)
    (ltO rtO : Option Pt) (lt rt : Pt) (sp : ℕ)
    (ho : fitOnce points m ltO rtO = .inr (lt, rt, sp)) :
    fit_bezier (fuel + 1) points m ltO rtO =
      match fit_bezier fuel (points.take (sp + 1)) m (some lt)
              (some (normalize (vsub (points.getD
                (if sp = 0 then points.length - 1 else sp - 1) (0, 0))
                (points.getD (sp + 1) (0, 0))))) with
      | none => none
      | some .typeErr => some .typeErr
      | some (.ok l) =>
        match fit_bezier fuel (points.drop sp) m
                (some (smul (-1) (normalize (vsub (points.getD
                  (if sp = 0 then points.length - 1 else sp - 1) (0, 0))
                  (points.getD (sp + 1) (0, 0)))))) (some rt) with
        | none => none
        | some .typeErr => some .typeErr
        | some (.ok r) => some (.ok (l ++ r)) := by
  rw [fit_bezier, ho]

/-- On a 1-point range `fit_bezier` raises: the parameterization step divides
the python list `[0]` by the int 0 (see `ChordRes`). -/
theorem fit_bezier_single (fuel : ℕ) (m : ℝ) (ltO rtO : Option Pt) (x : Pt) :
    fit_bezier fuel [x] m ltO rtO = some .typeErr := by
  apply fit_bezier_eq_inl
  exact fitOnce_typeErr_eq [x] m ltO rtO (by simp) (chordParam_single x)

/-- The result of a non-splitting, non-raising level of `fit_bezier` is a
non-empty list of 4-control-point curves whose ends are input points. -/
theorem fitOnce_inl_props (points : List Pt) (m : ℝ) (ltO rtO : Option Pt)
    (r : List (List Pt)) (hp : points ≠ [])
    (h : fitOnce points m ltO rtO = .inl (.ok r)) :
    r ≠ [] ∧ ∀ c ∈ r, c.length = 4 ∧ c.headI ∈ points ∧
      c.getLastD (0, 0) ∈ points := by
  rcases fitOnce_inl_ok_elim points m ltO rtO r h with
    ⟨h2, c1, c2, hr⟩ | ⟨lt, rt, u, bez, hsucc, hr⟩
  · subst hr
    refine ⟨by simp, ?_⟩
    intro c hc
    simp only [List.mem_singleton] at hc
    subst hc
    refine ⟨rfl, ?_, ?_⟩
    · have h0 : (0 : ℕ) < points.length := by omega
      rw [List.headI, List.getD_eq_getElem points (0, 0) h0]
      exact List.getElem_mem h0
    · have h1 : (1 : ℕ) < points.length := by omega
      have hgl : ([points.getD 0 (0, 0), c1, c2,
          points.getD 1 (0, 0)] : List Pt).getLastD (0, 0) =
          points.getD 1 (0, 0) := rfl
      rw [hgl, List.getD_eq_getElem points (0, 0) h1]
      exact List.getElem_mem h1
  · subst hr
    obtain ⟨b1, b2, hbez⟩ := fitLoop_success_shape points m lt rt 31
      u bez hsucc
    refine ⟨by simp, ?_⟩
    intro c hc
    simp only [List.mem_singleton] at hc
    subst hc
    rw [hbez]
    exact ⟨rfl, headI_mem points hp, getLastD_mem points (0, 0) hp⟩

/-- Endpoint preservation: whenever `fit_bezier` returns normally (no raised
`TypeError`, no fuel exhaustion), the result is a non-empty list of
4-control-point curves whose first and last control points are members of
the input polyline. -/
theorem fit_bezier_endpoints_aux : ∀ fuel : ℕ, ∀ points : List Pt, ∀ m : ℝ,
    ∀ ltO rtO : Option Pt, ∀ r : List (List Pt), 0 < m → points ≠ [] →
    fit_bezier fuel points m ltO rtO = some (.ok r) →
    r ≠ [] ∧ ∀ c ∈ r, c.length = 4 ∧ c.headI ∈ points ∧
      c.getLastD (0, 0) ∈ points := by
  intro fuel
  induction fuel with
  | zero =>
    intro points m ltO rtO r hm hp hsome
    rcases ho : fitOnce points m ltO rtO with r' | ⟨lt, rt, sp⟩
    · rw [fit_bezier_eq_inl 0 points m ltO rtO r' ho] at hsome
      simp only [Option.some.injEq] at hsome
      subst hsome
      exact fitOnce_inl_props points m ltO rtO r hp ho
    · rw [fit_bezier_zero_eq_inr points m ltO rtO lt rt sp ho] at hsome
      exact absurd hsome (by simp)
  | succ fuel ih =>
    intro points m ltO rtO r hm hp hsome
    rcases ho : fitOnce points m ltO rtO with r' | ⟨lt, rt, sp⟩
    · rw [fit_bezier_eq_inl (fuel + 1) points m ltO rtO r' ho] at hsome
      simp only [Option.some.injEq] at hsome
      subst hsome
      exact fitOnce_inl_props points m ltO rtO r hp ho
    · rw [fit_bezier_succ_eq_inr fuel points m ltO rtO lt rt sp ho] at hsome
      obtain ⟨hne2, hcase⟩ := fitOnce_inr_elim points m ltO rtO lt rt sp ho
      rcases hcase with ⟨hnan, hsp0⟩ | ⟨u, hcu, hfail⟩
      · subst hsp0
        rw [take_one_eq_headI points hp,
          fit_bezier_single fuel m _ _ points.headI] at hsome
        exact absurd hsome (by simp)
      · have hlen := chordParam_ok_length points u hcu
        have hokp := chordParam_ok_endOK points u hcu
        obtain ⟨hsp0, hsp1⟩ := fitLoop_failure_interior points m lt rt 31
          u sp hm hlen hokp hfail
        have hspif : (if sp = 0 then points.length - 1 else sp - 1) =
            sp - 1 := by
          rw [if_neg (by omega)]
        rw [hspif] at hsome
        rcases hL : fit_bezier fuel (points.take (sp + 1)) m
            (some lt) (some (normalize (vsub (points.getD (sp - 1) (0, 0))
              (points.getD (sp + 1) (0, 0))))) with _ | fl
        · rw [hL] at hsome
          exact absurd hsome (by simp)
        rcases fl with l | _
        swap
        · rw [hL] at hsome
          exact absurd hsome (by simp)
        rcases hR : fit_bezier fuel (points.drop sp) m
            (some (smul (-1) (normalize (vsub (points.getD (sp - 1) (0, 0))
              (points.getD (sp + 1) (0, 0)))))) (some rt) with _ | fr
        · rw [hL, hR] at hsome
          exact absurd hsome (by simp)
        rcases fr with rr | _
        swap
        · rw [hL, hR] at hsome
          exact absurd hsome (by simp)
        rw [hL, hR] at hsome
        simp only [Option.some.injEq, FitRes.ok.injEq] at hsome
        have htake_ne : points.take (sp + 1) ≠ [] := by
          intro hc
          have hlen2 := List.length_take (sp + 1) points
          rw [hc] at hlen2
          simp only [List.length_nil] at hlen2
          omega
        have hdrop_ne : points.drop sp ≠ [] := by
          intro hc
          have hlen2 := List.length_drop sp points
          rw [hc] at hlen2
          simp only [List.length_nil] at hlen2
          omega
        obtain ⟨hlne, hlmem⟩ := ih (points.take (sp + 1)) m _ _ l hm
          htake_ne hL
        obtain ⟨hrne, hrmem⟩ := ih (points.drop sp) m _ _ rr hm hdrop_ne hR
        subst hsome
        constructor
        · simp [hlne]
        · intro c hc
          rcases List.mem_append.mp hc with h | h
          · obtain ⟨h4, hh, hl2⟩ := hlmem c h
            exact ⟨h4, List.take_subset _ _ hh, List.take_subset _ _ hl2⟩
          · obtain ⟨h4, hh, hl2⟩ := hrmem c h
            exact ⟨h4, List.drop_subset _ _ hh, List.drop_subset _ _ hl2⟩

/-! ## Claim C4: the three exits of the refinement loop -/

/-- C4: In every iteration of the fit driver's refinement loop (with the
per-iteration curve `bez`, per-point squared errors `errs`, split index `sp`
and maximum error `err`), if `err < max_err` the loop returns the
single curve (success); if additionally checked `err > max_err ^ 2` it stops
and proceeds to subdivision (early abort); otherwise the loop performs
another Newton-Raphson reparameterization round with the remaining
iteration budget (32 iterations in total: the driver enters with fuel 31). -/
theorem C4_loop_branches (points : List Pt) (m : ℝ) (lt rt : Pt) (fuel : ℕ)
    (u : List ℝ) (bez : List Pt) (errs : List ℝ) (sp : ℕ) (err : ℝ)
    (hbez : bez = generate_bezier points u lt rt)
    (herrs : errs = errsOf bez points u)
    (hsp : sp = argmaxIdx errs) (herr : err = errs.getD sp 0) :
    (err < m → fitLoop points m lt rt fuel u = .success bez) ∧
    (¬ err < m → err > m ^ 2 →
      fitLoop points m lt rt fuel u = .failure sp) ∧
    (¬ err < m → ¬ err > m ^ 2 →
      fitLoop points m lt rt (fuel + 1) u =
        fitLoop points m lt rt fuel
          (newton_raphson_root_find bez points u)) := by
  subst hbez
  subst herrs
  subst hsp
  subst herr
  refine ⟨?_, ?_, ?_⟩
  · intro h
    have hs : fitStep points m lt rt u = .done (.success
        (generate_bezier points u lt rt)) := by
      simp only [fitStep]
      rw [if_pos h]
    cases fuel <;> rw [fitLoop, hs]
  · intro h1 h2
    have hs : fitStep points m lt rt u = .done (.failure
        (argmaxIdx (errsOf (generate_bezier points u lt rt) points u))) := by
      simp only [fitStep]
      rw [if_neg h1, if_pos h2]
    cases fuel <;> rw [fitLoop, hs]
  · intro h1 h2
    have hs : fitStep points m lt rt u = .cont
        (generate_bezier points u lt rt)
        (argmaxIdx (errsOf (generate_bezier points u lt rt) points u)) := by
      simp only [fitStep]
      rw [if_neg h1, if_neg h2]
    rw [fitLoop, hs]

/-- Witness for C4 at the concrete peak input `wpts`. -/
theorem C4_loop_branches_witness :
    ((errsOf (generate_bezier wpts wu (1, 0) (-1, 0)) wpts wu).getD
        (argmaxIdx (errsOf (generate_bezier wpts wu (1, 0) (-1, 0)) wpts wu))
        0 < 1 →
      fitLoop wpts 1 (1, 0) (-1, 0) 5 wu =
        .success (generate_bezier wpts wu (1, 0) (-1, 0))) ∧
    (¬ (errsOf (generate_bezier wpts wu (1, 0) (-1, 0)) wpts wu).getD
        (argmaxIdx (errsOf (generate_bezier wpts wu (1, 0) (-1, 0)) wpts wu))
        0 < 1 →
      (errsOf (generate_bezier wpts wu (1, 0) (-1, 0)) wpts wu).getD
        (argmaxIdx (errsOf (generate_bezier wpts wu (1, 0) (-1, 0)) wpts wu))
        0 > 1 ^ 2 →
      fitLoop wpts 1 (1, 0) (-1, 0) 5 wu =
        .failure (argmaxIdx
          (errsOf (generate_bezier wpts wu (1, 0) (-1, 0)) wpts wu))) ∧
    (¬ (errsOf (generate_bezier wpts wu (1, 0) (-1, 0)) wpts wu).getD
        (argmaxIdx (errsOf (generate_bezier wpts wu (1, 0) (-1, 0)) wpts wu))
        0 < 1 →
      ¬ (errsOf (generate_bezier wpts wu (1, 0) (-1, 0)) wpts wu).getD
        (argmaxIdx (errsOf (generate_bezier wpts wu (1, 0) (-1, 0)) wpts wu))
        0 > 1 ^ 2 →
      fitLoop wpts 1 (1, 0) (-1, 0) (5 + 1) wu =
        fitLoop wpts 1 (1, 0) (-1, 0) 5
          (newton_raphson_root_find
            (generate_bezier wpts wu (1, 0) (-1, 0)) wpts wu)) :=
  C4_loop_branches wpts 1 (1, 0) (-1, 0) 5 wu _ _ _ _ rfl rfl rfl rfl

/-! ## Concrete evaluation helpers -/

theorem sqrt_25 : Real.sqrt 25 = 5 := by
  rw [show (25 : ℝ) = 5 ^ 2 by norm_num, Real.sqrt_sq (by norm_num)]

theorem sqrt_36 : Real.sqrt 36 = 6 := by
  rw [show (36 : ℝ) = 6 ^ 2 by norm_num, Real.sqrt_sq (by norm_num)]

theorem smul_zero_pt (c : ℝ) : smul c (0 : Pt) = 0 := by
  ext <;> simp [smul]

theorem vadd_zero_pt (p : Pt) : vadd p (0 : Pt) = p := by
  ext <;> simp [vadd]

theorem normalize_zero : normalize (0 : Pt) = 0 := by
  unfold normalize
  split
  · rfl
  · exact smul_zero_pt _

/-- On any 2-point input with no caller-supplied tangents, the computed
weighted tangents are the zero vector (there are no interior chord vectors),
so the 2-point heuristic degenerates to coincident control points. -/
theorem fitOnce_two (m : ℝ) (a b : Pt) :
    fitOnce [a, b] m none none = .inl (.ok [[a, a, b, b]]) := by
  simp [fitOnce, weights, wsum, normalize_zero, smul_zero_pt, vadd_zero_pt]

theorem fit_bezier_two (fuel : ℕ) (m : ℝ) (a b : Pt) :
    fit_bezier fuel [a, b] m none none = some (.ok [[a, a, b, b]]) :=
  fit_bezier_eq_inl fuel [a, b] m none none (.ok [[a, a, b, b]])
    (fitOnce_two m a b)

theorem chordParam_wpts : chordParam wpts = .ok wu := by
  norm_num [chordParam, wpts, wu, diffs, vsub, vnorm, norm2, dot, List.scanl,
    sqrt_25]

theorem gen_wpts : generate_bezier wpts wu (1, 0) (-1, 0) =
    [(0, 0), (2, 0), (4, 0), (6, 0)] := by
  norm_num [generate_bezier, wpts, wu, q, bezierEval, vadd, vsub, smul, dot,
    vnorm, norm2, sqrt_36]

theorem errs_wpts : errsOf [(0, 0), (2, 0), (4, 0), (6, 0)] wpts wu =
    [0, 16, 0] := by
  norm_num [errsOf, wpts, wu, q, bezierEval, vadd, vsub, smul, dot, norm2]

theorem argmax_errs_wpts : argmaxIdx [(0 : ℝ), 16, 0] = 1 := by
  norm_num [argmaxIdx, argmaxAux]

/-- On the peak input the very first iteration aborts early (err = 16
exceeds both 1/100 and its square), so the loop fails at split index 1. -/
theorem fitLoop_wpts_fail :
    fitLoop wpts (1 / 100) (1, 0) (-1, 0) 31 wu = .failure 1 := by
  have hs : fitStep wpts (1 / 100) (1, 0) (-1, 0) wu = .done (.failure 1) := by
    simp only [fitStep, gen_wpts, errs_wpts, argmax_errs_wpts]
    norm_num [List.getD]
  rw [fitLoop, hs]

theorem chordParam_cpts : chordParam cpts = .nanArray := by
  norm_num [chordParam, cpts, diffs, vsub, vnorm, norm2, dot, List.scanl,
    Real.sqrt_zero]

/-- Evaluating the source on the all-coincident 3-point input: the NaN
parameterization makes the loop exhaust and subdivide at index 0, the left
recursive call receives the 1-point range and raises, and the `TypeError`
propagates out. -/
theorem fit_bezier_cpts :
    fit_bezier 3 cpts (1 / 2) none none = some FitRes.typeErr := by
  have honce := fitOnce_nan_eq cpts (1 / 2) none none (by simp [cpts])
    chordParam_cpts
  rw [show (3 : ℕ) = 2 + 1 from rfl,
    fit_bezier_succ_eq_inr 2 cpts (1 / 2) none none _ _ 0 honce,
    show cpts.take (0 + 1) = [((0 : ℝ), (0 : ℝ))] from rfl,
    fit_bezier_single]

/-! ## Claim C5: interiority of the split index -/

/-- C5 (counterexample): on the all-coincident input `cpts` the
parameterization is the all-NaN array, the refinement loop can only exit by
exhausting its budget and subdivides at split index 0 — the first index —
handing the left recursive call the 1-point range `cpts.take (0 + 1)`
(fewer than 2 points), whose parameterization step then raises. -/
theorem C5_counterexample :
    chordParam cpts = .nanArray ∧ fitLoopNaN 31 = .failure 0 ∧
      (cpts.take (0 + 1)).length = 1 ∧
      fit_bezier 3 cpts (1 / 2) none none = some FitRes.typeErr :=
  ⟨chordParam_cpts, fitLoopNaN_const 31, rfl, fit_bezier_cpts⟩

/-- C5 (amended): for every input polyline of at least 2 points and positive
`max_err`, whenever the chord-length parameterization is well defined (the
total chord length is nonzero, `chordParam = ok u`) and the refinement loop
entered with it ends in subdivision, the split index is strictly inside the
range — never 0 and never the last index — so both recursive slices are
strictly shorter and have at least 2 points.  (On a zero total chord length
the parameterization is all-NaN and the code instead splits at index 0.) -/
theorem C5_split_strictly_interior (points : List Pt) (m : ℝ) (lt rt : Pt)
    (u : List ℝ) (sp : ℕ) (h2 : 2 ≤ points.length) (hm : 0 < m)
    (hu : chordParam points = .ok u)
    (hfail : fitLoop points m lt rt 31 u = .failure sp) :
    0 < sp ∧ sp + 1 < points.length ∧
      (points.take (sp + 1)).length < points.length ∧
      2 ≤ (points.take (sp + 1)).length ∧
      (points.drop sp).length < points.length ∧
      2 ≤ (points.drop sp).length := by
  obtain ⟨h0, h1⟩ := fitLoop_failure_interior points m lt rt 31 u sp hm
    (chordParam_ok_length points u hu) (chordParam_ok_endOK points u hu) hfail
  refine ⟨h0, h1, ?_, ?_, ?_, ?_⟩ <;>
    simp only [List.length_take, List.length_drop] <;> omega

/-- Witness for C5: the peak input aborts in its first iteration with split
index 1, which is strictly interior. -/
theorem C5_split_strictly_interior_witness :
    0 < 1 ∧ 1 + 1 < wpts.length ∧
      (wpts.take (1 + 1)).length < wpts.length ∧
      2 ≤ (wpts.take (1 + 1)).length ∧
      (wpts.drop 1).length < wpts.length ∧
      2 ≤ (wpts.drop 1).length :=
  C5_split_strictly_interior wpts (1 / 100) (1, 0) (-1, 0) wu 1
    (by simp [wpts]) (by norm_num) chordParam_wpts fitLoop_wpts_fail

/-! ## Claim C6: the code raises on an all-coincident input -/

/-- C6: the claim (and the spec's section 7) promise termination with a
valid result and no exception for every input of at least 2 points with
finite coordinates, but on the all-coincident input `cpts` the unguarded
`u /= u[-1]` produces the all-NaN parameterization, the loop exhausts its
32 iterations and subdivides at index 0, and the 1-point left sub-range's
parameterization step divides the python list `[0]` by the int 0, raising
a `TypeError` that propagates out of `fit_bezier`. -/
theorem C6_raises_on_coincident :
    chordParam cpts = .nanArray ∧
      chordParam (cpts.take (0 + 1)) = .typeErr ∧
      fit_bezier 3 cpts (1 / 2) none none = some FitRes.typeErr :=
  ⟨chordParam_cpts,
   by
     rw [show cpts.take (0 + 1) = [((0 : ℝ), (0 : ℝ))] from rfl]
     exact chordParam_single _,
   fit_bezier_cpts⟩

/-! ## Claim C8: endpoint identity preservation -/

/-- C8 (counterexample): on the valid (3-point, finite) all-coincident
input `cpts`, `fit_bezier` does not return any curve sequence at all — it
raises `TypeError` — so the unconditional "returns a non-empty ordered
sequence" part of the claim fails. -/
theorem C8_counterexample :
    fit_bezier 3 cpts (1 / 2) none none = some FitRes.typeErr ∧
      ¬ ∃ r : List (List Pt),
        fit_bezier 3 cpts (1 / 2) none none = some (.ok r) := by
  refine ⟨fit_bezier_cpts, ?_⟩
  rintro ⟨r, hr⟩
  rw [fit_bezier_cpts] at hr
  simp at hr

/-- C8 (amended): for every valid input (at least 2 points) and positive
`max_err`, whenever `fit_bezier` returns a result (rather than raising
`TypeError` from a degenerate all-coincident subrange), that result is a
non-empty ordered sequence of 4-point curves, and each curve's first and
last control points are members of the original input polyline. -/
theorem C8_endpoint_identity (fuel : ℕ) (points : List Pt) (m : ℝ)
    (ltO rtO : Option Pt) (r : List (List Pt))
    (h2 : 2 ≤ points.length) (hm : 0 < m)
    (hr : fit_bezier fuel points m ltO rtO = some (.ok r)) :
    r ≠ [] ∧ ∀ c ∈ r, c.length = 4 ∧ c.headI ∈ points ∧
      c.getLastD (0, 0) ∈ points := by
  apply fit_bezier_endpoints_aux fuel points m ltO rtO r hm _ hr
  intro hc
  rw [hc] at h2
  simp at h2

/-- Witness for C8 on the 2-point input. -/
theorem C8_endpoint_identity_witness :
    ([[((0 : ℝ), (0 : ℝ)), (0, 0), (1, 0), (1, 0)]] : List (List Pt)) ≠ [] ∧
    ∀ c ∈ ([[((0 : ℝ), (0 : ℝ)), (0, 0), (1, 0), (1, 0)]] : List (List Pt)),
      c.length = 4 ∧ c.headI ∈ [((0 : ℝ), (0 : ℝ)), (1, 0)] ∧
      c.getLastD (0, 0) ∈ [((0 : ℝ), (0 : ℝ)), (1, 0)] :=
  C8_endpoint_identity 2 [((0 : ℝ), (0 : ℝ)), (1, 0)] 1 none none _
    (by simp) (by norm_num) (fit_bezier_two 2 1 (0, 0) (1, 0))

/-! ## Claim C9: first-iteration exit for max_err below 1 -/

/-- C9 (counterexample): on the all-coincident 3-point input with
`max_err = 1/2` (so `0 < max_err < 1`), the parameterization and hence all
errors are NaN; neither first-iteration exit comparison holds, the loop can
only leave by exhausting its whole iteration budget (reparameterizing each
round), and it ends in subdivision — and ultimately a raised `TypeError` —
rather than exiting during its first iteration. -/
theorem C9_counterexample :
    chordParam cpts = .nanArray ∧ fitLoopNaN 31 = fitLoopNaN 0 ∧
      fitLoopNaN 31 = .failure 0 ∧
      fit_bezier 3 cpts (1 / 2) none none = some FitRes.typeErr :=
  ⟨chordParam_cpts, by rw [fitLoopNaN_const 31, fitLoopNaN_const 0],
   fitLoopNaN_const 31, fit_bezier_cpts⟩

/-- C9 (amended): for at least 3 points, `0 < max_err < 1` and a
well-defined chord parameterization (`chordParam = ok u`: some consecutive
points differ), the refinement loop exits during its first iteration —
success if the first-iteration error is below `max_err`, early abort
otherwise (any `err ≥ max_err` also exceeds `max_err ^ 2`) — so the outcome
is independent of the iteration budget and `newton_raphson_root_find` is
never invoked.  (With the all-NaN parameterization neither comparison
holds and the loop never exits early.) -/
theorem C9_first_iteration_exit (points : List Pt) (m : ℝ) (lt rt : Pt)
    (fuel : ℕ) (u : List ℝ) (bez : List Pt) (errs : List ℝ)
    (h3 : 3 ≤ points.length) (hm0 : 0 < m) (hm1 : m < 1)
    (hu : chordParam points = .ok u)
    (hbez : bez = generate_bezier points u lt rt)
    (herrs : errs = errsOf bez points u) :
    fitLoop points m lt rt fuel u =
      if errs.getD (argmaxIdx errs) 0 < m then .success bez
      else .failure (argmaxIdx errs) := by
  subst hbez
  subst herrs
  by_cases h : (errsOf (generate_bezier points u lt rt) points
      u).getD (argmaxIdx (errsOf
      (generate_bezier points u lt rt) points u)) 0 < m
  · rw [if_pos h]
    have hs : fitStep points m lt rt u = .done (.success
        (generate_bezier points u lt rt)) := by
      simp only [fitStep]
      rw [if_pos h]
    cases fuel <;> rw [fitLoop, hs]
  · rw [if_neg h]
    have h2 : (errsOf (generate_bezier points u lt rt) points
        u).getD (argmaxIdx (errsOf
        (generate_bezier points u lt rt) points u)) 0 > m ^ 2 := by
      have hge := not_lt.mp h
      nlinarith
    have hs : fitStep points m lt rt u = .done (.failure
        (argmaxIdx (errsOf (generate_bezier points u lt rt)
          points u))) := by
      simp only [fitStep]
      rw [if_neg h, if_pos h2]
    cases fuel <;> rw [fitLoop, hs]

/-- Witness for C9 at the concrete peak input `wpts` with max_err 1/2. -/
theorem C9_first_iteration_exit_witness :
    fitLoop wpts (1 / 2) (1, 0) (-1, 0) 31 wu =
      if (errsOf (generate_bezier wpts wu (1, 0) (-1, 0)) wpts
          wu).getD (argmaxIdx (errsOf
          (generate_bezier wpts wu (1, 0) (-1, 0)) wpts wu)) 0 < 1 / 2 then
        .success (generate_bezier wpts wu (1, 0) (-1, 0))
      else .failure (argmaxIdx (errsOf
        (generate_bezier wpts wu (1, 0) (-1, 0)) wpts wu)) :=
  C9_first_iteration_exit wpts (1 / 2) (1, 0) (-1, 0) 31 wu _ _
    (by simp [wpts]) (by norm_num) (by norm_num) chordParam_wpts rfl rfl

/-! ## Claim C1: sign of the Newton-Raphson update -/

/-- C1: The code returns `u + num/den`, not the `u - num/den` its own
docstring (and the claim) states.  At the collinear cubic `cbez`, point
(0,0) and u = 1/2 the code's numerator is 6 and denominator 16
(both computed from the code's `qprime`/`qprimeprime`), the function
returns [1/2 + 6/16] = [7/8], and 7/8 differs from the claimed
1/2 - 6/16 = 1/8. -/
theorem C1_newton_update_sign :
    dot (vsub (q cbez (1 / 2)) (0, 0)) (qprime cbez (1 / 2)) = 6 ∧
    dot (qprime cbez (1 / 2)) (qprime cbez (1 / 2)) +
      dot (vsub (q cbez (1 / 2)) (0, 0)) (qprimeprime cbez (1 / 2)) = 16 ∧
    newton_raphson_root_find cbez [(0, 0)] [1 / 2] = [1 / 2 + 6 / 16] ∧
    ([1 / 2 + 6 / 16] : List ℝ) ≠ [1 / 2 - 6 / 16] := by
  refine ⟨?_, ?_, ?_, by norm_num⟩ <;>
    norm_num [newton_raphson_root_find, nrStep, q, qprime, qprimeprime,
      hodo, diffs, bezierEval, vadd, vsub, smul, dot, cbez]

/-! ## Claim C2: hodograph scaling of the derivative evaluators -/

/-- C2: The code's `hodo` multiplies the control-point differences by
`p.shape[0]` (4 for a cubic, then 3), not by the degree as the spec's
hodograph construction (here `hodograph`, modelled from the spec) requires;
at `qbez` and t = 0 the code's first and second derivative evaluators give
(4,0) and (-12,12) where the spec's construction gives (3,0) and (-6,6). -/
theorem C2_hodograph_scaling :
    qprime qbez 0 = (4, 0) ∧
    bezierEval (hodograph qbez) 0 = (3, 0) ∧
    qprimeprime qbez 0 = (-12, 12) ∧
    bezierEval (hodograph (hodograph qbez)) 0 = (-6, 6) ∧
    ((4, 0) : Pt) ≠ (3, 0) ∧ ((-12, 12) : Pt) ≠ (-6, 6) := by
  refine ⟨?_, ?_, ?_, ?_, by norm_num [Prod.ext_iff], by norm_num [Prod.ext_iff]⟩ <;>
    norm_num [qprime, qprimeprime, hodo, hodograph, diffs, bezierEval, qbez,
      vsub, smul, vadd]

/-! ## Claim C3: the 2-point scenario -/

/-- C3 (counterexample): on points [(0,0),(1,0)] with max_err 1 and no
caller tangents, `fit_bezier` does NOT return the claimed
[[(0,0),(1/3,0),(2/3,0),(1,0)]]. -/
theorem C3_counterexample :
    fit_bezier 2 [((0 : ℝ), (0 : ℝ)), (1, 0)] 1 none none ≠
      some (.ok [[(0, 0), (1 / 3, 0), (2 / 3, 0), (1, 0)]]) := by
  rw [fit_bezier_two 2 1 (0, 0) (1, 0)]
  intro h
  simp only [Option.some.injEq, FitRes.ok.injEq, List.cons.injEq,
    Prod.mk.injEq] at h
  norm_num at h

/-- C3 (amended): with only two points the weighted tangent estimation sums
over an empty list of interior vectors, so both tangents are the zero
vector and the returned single curve has its inner control points coincident
with the endpoints: [[(0,0),(0,0),(1,0),(1,0)]], for any recursion fuel. -/
theorem C3_two_point_result (fuel : ℕ) :
    fit_bezier fuel [((0 : ℝ), (0 : ℝ)), (1, 0)] 1 none none =
      some (.ok [[(0, 0), (0, 0), (1, 0), (1, 0)]]) :=
  fit_bezier_two fuel 1 (0, 0) (1, 0)

/-! ## Claim C7: non-coincident control points from `generate_bezier` -/

/-- C7 (counterexample): with zero tangents (a value the spec's data model
allows) `generate_bezier` returns coincident control points: P1 = P0. -/
theorem C7_counterexample :
    generate_bezier wpts wu (0, 0) (0, 0) = [(0, 0), (0, 0), (6, 0), (6, 0)] ∧
    (generate_bezier wpts wu (0, 0) (0, 0)).getD 1 (0, 0) =
      (generate_bezier wpts wu (0, 0) (0, 0)).getD 0 (0, 0) := by
  have h : generate_bezier wpts wu (0, 0) (0, 0) =
      [(0, 0), (0, 0), (6, 0), (6, 0)] := by
    norm_num [generate_bezier, wpts, wu, q, bezierEval, vadd, vsub, smul,
      dot, vnorm, norm2, sqrt_36]
  refine ⟨h, ?_⟩
  rw [h]
  rfl

/-- Both final branches of `generate_bezier`, with the alpha values and the
chord length abstracted, produce non-coincident control points when the
offsets are positive along nonzero tangents. -/
theorem gen_branch_ne (aL aR s e : ℝ) (p0 p3 lt rt : Pt)
    (hs : 0 < s) (he : 0 < e) (hlt : lt ≠ (0, 0)) (hrt : rt ≠ (0, 0)) :
    ((if aL < e ∨ aR < e then
        [p0, vadd p0 (smul (s / 3) lt), vadd p3 (smul (s / 3) rt), p3]
      else [p0, vadd p0 (smul aL lt), vadd p3 (smul aR rt), p3]) :
        List Pt).getD 1 (0, 0) ≠
      ((if aL < e ∨ aR < e then
        [p0, vadd p0 (smul (s / 3) lt), vadd p3 (smul (s / 3) rt), p3]
      else [p0, vadd p0 (smul aL lt), vadd p3 (smul aR rt), p3]) :
        List Pt).getD 0 (0, 0) ∧
    ((if aL < e ∨ aR < e then
        [p0, vadd p0 (smul (s / 3) lt), vadd p3 (smul (s / 3) rt), p3]
      else [p0, vadd p0 (smul aL lt), vadd p3 (smul aR rt), p3]) :
        List Pt).getD 2 (0, 0) ≠
      ((if aL < e ∨ aR < e then
        [p0, vadd p0 (smul (s / 3) lt), vadd p3 (smul (s / 3) rt), p3]
      else [p0, vadd p0 (smul aL lt), vadd p3 (smul aR rt), p3]) :
        List Pt).getD 3 (0, 0) := by
  split_ifs with h
  · simp only [List.getD_cons_succ, List.getD_cons_zero]
    constructor
    · exact vadd_ne_self _ _
        (smul_ne_zero_pt _ _ (div_pos hs (by norm_num)).ne' hlt)
    · exact vadd_ne_self _ _
        (smul_ne_zero_pt _ _ (div_pos hs (by norm_num)).ne' hrt)
  · push_neg at h
    obtain ⟨hal, har⟩ := h
    simp only [List.getD_cons_succ, List.getD_cons_zero]
    constructor
    · exact vadd_ne_self _ _
        (smul_ne_zero_pt _ _ (lt_of_lt_of_le he hal).ne' hlt)
    · exact vadd_ne_self _ _
        (smul_ne_zero_pt _ _ (lt_of_lt_of_le he har).ne' hrt)

/-- C7 (amended): whenever both supplied tangents are nonzero and the first
and last points differ, `generate_bezier` returns non-coincident control
points (P1 distinct from P0 and P2 distinct from P3) with no error
condition: both the least-squares branch (alphas at least
1e-6 times the chord length) and the chordLength/3 fallback offset P1/P2
along the nonzero tangents by a positive amount. -/
theorem C7_noncoincident_controls (points : List Pt) (u : List ℝ)
    (lt rt : Pt) (h3 : 3 ≤ points.length)
    (hlt : lt ≠ (0, 0)) (hrt : rt ≠ (0, 0))
    (hend : points.headI ≠ points.getLastD (0, 0)) :
    (generate_bezier points u lt rt).getD 1 (0, 0) ≠
      (generate_bezier points u lt rt).getD 0 (0, 0) ∧
    (generate_bezier points u lt rt).getD 2 (0, 0) ≠
      (generate_bezier points u lt rt).getD 3 (0, 0) := by
  have hsub : vsub points.headI (points.getLastD (0, 0)) ≠ (0, 0) := by
    intro hc
    exact hend ((vsub_eq_zero_iff (points.getLastD (0, 0)) points.headI).mp hc)
  have hs : 0 < vnorm (vsub points.headI (points.getLastD (0, 0))) :=
    vnorm_pos _ hsub
  simp only [generate_bezier]
  exact gen_branch_ne _ _ _ _ _ _ _ _ hs
    (mul_pos (by norm_num) hs) hlt hrt

/-- Witness for C7 at `wpts` with axis tangents. -/
theorem C7_noncoincident_controls_witness :
    (generate_bezier wpts wu (1, 0) (-1, 0)).getD 1 (0, 0) ≠
      (generate_bezier wpts wu (1, 0) (-1, 0)).getD 0 (0, 0) ∧
    (generate_bezier wpts wu (1, 0) (-1, 0)).getD 2 (0, 0) ≠
      (generate_bezier wpts wu (1, 0) (-1, 0)).getD 3 (0, 0) :=
  C7_noncoincident_controls wpts wu (1, 0) (-1, 0) (by simp [wpts])
    (by norm_num [Prod.ext_iff]) (by norm_num [Prod.ext_iff])
    (by norm_num [wpts, Prod.ext_iff])

end OsuDreamer
